import Mathlib

/-!
Shallow embedding of the Polygon-Starter query-equivalence checker
(`src/polygon/environment.py`) and proofs about its specification claims.

The SMT layer of the original code builds symbolic formulas over three
primitive families: `Deleted(table, row)`, `Null(table, row, col)` and
`Cell(table, row, col)`.  We embed formulas semantically: an `SMTState`
assigns a concrete value to every primitive, and each formula-building
Python function becomes a Lean function computing the truth value of the
built formula under that assignment.
-/

namespace Polygon

/-- Scalar expression AST nodes as they are discriminated by
`Environment.o1_eq_o2` (environment.py:516-528): literals carrying a bool
are skipped, other literals are treated as 1-based column positions,
attributes are de-qualified on a dot, and everything else is handed to the
expression encoder. -/
inductive PExpr where
  | litBool : Bool → PExpr
  | litInt : Int → PExpr
  | attrName : String → PExpr
  | otherExpr : Nat → PExpr
deriving DecidableEq

/-- Symbolic output of encoding one query (a table schema as used by
`o1_eq_o2`): fresh table id, row-capacity bound, the ordered list of
output column ids, the lineage tag set and the node expression list
(`o.node.expressions`).  `TableSchema` itself lives in
`polygon/schemas.py`, which is not part of the sources; its fields are
modelled from the spec (§3 Symbolic Output) with exactly the components
`o1_eq_o2` reads. -/
structure Output where
  table_id : Nat
  bound : Nat
  columns : List Int
  lineage : Option (List String)
  expressions : List PExpr

/-- Assignment to the symbolic primitives.  `exprEval` is modelled from
the spec: `ExpressionEncoder.expression_for_tuple` (§4.2, file
`polygon/visitors/expression_encoder.py` is not among the sources) is an
abstract per-output evaluation of an expression at a row, returning a
(value, is_null) pair. -/
structure SMTState where
  deleted : Nat → Nat → Bool
  val : Nat → Nat → Int → Int
  null : Nat → Nat → Int → Bool
  exprEval : Nat → PExpr → Nat → Int × Bool

/-- Truth value of the cell-comparison disjunction built in
`f_multiplicity` (environment.py:485-491): both cells null, or both
non-null with equal values.  The first cell is addressed by
`(table, row, col)` of the iterated output `r`, the second by a triple
from the reference row. -/
def cellsMatch (s : SMTState) (rt ri : Nat) (cid : Int) (t : Nat × Nat × Int) : Bool :=
  (s.null rt ri cid && s.null t.1 t.2.1 t.2.2) ||
    (!(s.null rt ri cid || s.null t.1 t.2.1 t.2.2) &&
      (s.val rt ri cid == s.val t.1 t.2.1 t.2.2))

/-- Truth value of `And(tuple_eq)` for one candidate row of `r`
(environment.py:483-492): the row slot is not deleted and every column of
`r` matches the corresponding reference triple. -/
def tupleEq (s : SMTState) (r : Output) (ri : Nat) (t : List (Nat × Nat × Int)) : Bool :=
  !(s.deleted r.table_id ri) &&
    ((r.columns.zip t).all fun p => cellsMatch s r.table_id ri p.1 p.2)

/-- Value of the `f_multiplicity(r, t)` sum (environment.py:480-493). -/
def f_multiplicity (s : SMTState) (r : Output) (t : List (Nat × Nat × Int)) : Int :=
  ((List.range r.bound).map fun ri => if tupleEq s r ri t then (1 : Int) else 0).sum

/-- The reference-triple list `[(o1.table_id, tuple_id, column.column_id) for column in o1]`
(environment.py:504-505). -/
def rowTriples (o : Output) (tid : Nat) : List (Nat × Nat × Int) :=
  o.columns.map fun c => (o.table_id, tid, c)

/-- Value of the `o1_size`/`o2_size` sums (environment.py:495-496). -/
def o_size (s : SMTState) (o : Output) : Int :=
  ((List.range o.bound).map fun tid => if !(s.deleted o.table_id tid) then (1 : Int) else 0).sum

/-- Truth value of `And(lateral_bag_eq)` (environment.py:499-507). -/
def lateral_bag_eq (s : SMTState) (o1 o2 : Output) : Bool :=
  (List.range o1.bound).all fun tid =>
    s.deleted o1.table_id tid ||
      (f_multiplicity s o1 (rowTriples o1 tid) == f_multiplicity s o2 (rowTriples o1 tid))

/-- The `'Sorted' in o.lineage` test guarded by `o.lineage is not None`
(environment.py:511), with the lineage modelled as a tag list (spec §3). -/
def isSorted (o : Output) : Bool :=
  match o.lineage with
  | some tags => tags.contains "Sorted"
  | none => false

/-- Splitting a character list at a separator, modelling Python
`str.split(sep)` for a one-character separator (structural recursion so
that proofs can evaluate it). -/
def splitOnChar (sep : Char) : List Char → List (List Char)
  | [] => [[]]
  | c :: rest =>
    let r := splitOnChar sep rest
    if c = sep then [] :: r
    else
      match r with
      | h :: t => (c :: h) :: t
      | [] => [[c]]

/-- Python `expression.name.split('.')[1]` applied when `'.' in expression.name`
(environment.py:525-526). -/
def dequalifyAttr (name : String) : String :=
  if name.data.contains '.' then
    match splitOnChar '.' name.data with
    | _ :: b :: _ => ⟨b⟩
    | _ => name
  else name

/-- The (value, is_null) pair read for one sort/select expression at one
row position in the `Sorted` branch of `o1_eq_o2` (environment.py:516-528):
`none` when the expression is a boolean literal (the `continue` case),
a direct symbolic-database cell read at column `value - 1` for other
literals, and the abstract encoder result otherwise (attributes first
de-qualified on a dot). -/
def exprCell (s : SMTState) (o : Output) (e : PExpr) (tid : Nat) : Option (Int × Bool) :=
  match e with
  | .litBool _ => none
  | .litInt v => some (s.val o.table_id tid (v - 1), s.null o.table_id tid (v - 1))
  | .attrName nm => some (s.exprEval o.table_id (.attrName (dequalifyAttr nm)) tid)
  | .otherExpr i => some (s.exprEval o.table_id (.otherExpr i) tid)

/-- Null-aware agreement of two (value, is_null) pairs, the disjunction
built at environment.py:534-540 (and the same shape as the cell test in
`f_multiplicity`). -/
def pairMatchB (p q : Int × Bool) : Bool :=
  (p.2 && q.2) || (!(p.2 || q.2) && (p.1 == q.1))

/-- Truth value of `And(sorted_columns_list_eq)` (environment.py:512-543):
for every row position up to the smaller bound and every expression of
`o1.node.expressions` that yields a cell, if the `o1` slot is not deleted
the two cells must agree null-aware. -/
def sorted_columns_list_eq (s : SMTState) (o1 o2 : Output) : Bool :=
  (List.range (min o1.bound o2.bound)).all fun tid =>
    o1.expressions.all fun e =>
      match exprCell s o1 e tid, exprCell s o2 e tid with
      | some p, some q => s.deleted o1.table_id tid || pairMatchB p q
      | _, _ => true

/-- Truth value of the formula built by `Environment.o1_eq_o2`
(environment.py:479-546): with equal column counts, size equality and
lateral bag equality, plus the positional sorted-columns constraint when
both lineages carry `"Sorted"`; with differing column counts, the
disjunction `o1_size > 0 ∨ o2_size > 0`. -/
def o1_eq_o2 (s : SMTState) (o1 o2 : Output) : Bool :=
  if o1.columns.length = o2.columns.length then
    decide (o_size s o1 = o_size s o2) && lateral_bag_eq s o1 o2 &&
      (if isSorted o1 && isSorted o2 then sorted_columns_list_eq s o1 o2 else true)
  else
    decide (0 < o_size s o1) || decide (0 < o_size s o2)

/-- Truth value of the goal `Not(self.o1_eq_o2(outputs[0], outputs[1]))`
asserted under label `neq` by the search loop (environment.py:243). -/
def neq_goal (s : SMTState) (o1 o2 : Output) : Bool :=
  !(o1_eq_o2 s o1 o2)

/-- Whether some row slot of `o` is not deleted, i.e. the output is
allowed to be non-empty under the assignment. -/
def hasNonDeletedRow (s : SMTState) (o : Output) : Bool :=
  (List.range o.bound).any fun tid => !(s.deleted o.table_id tid)

/-- Logical size of an output: the count of non-deleted row slots
(spec §3). -/
def logicalSize (s : SMTState) (o : Output) : Nat :=
  (List.range o.bound).countP fun tid => !(s.deleted o.table_id tid)

/-- The abstract row at a slot: the (value, is_null) pair of every output
column in order. -/
def rowVec (s : SMTState) (o : Output) (tid : Nat) : List (Int × Bool) :=
  o.columns.map fun c => (s.val o.table_id tid c, s.null o.table_id tid c)

/-- Null-aware row agreement: every pair of corresponding cells matches
(spec §4.5). -/
def vecMatch (a b : List (Int × Bool)) : Bool :=
  (a.zip b).all fun p => pairMatchB p.1 p.2

/-- Multiplicity of an abstract row among the rows of `o`: the count of
non-deleted row slots of `o` whose row matches it null-aware (spec §4.5). -/
def multiplicity (s : SMTState) (o : Output) (w : List (Int × Bool)) : Nat :=
  (List.range o.bound).countP fun tid =>
    !(s.deleted o.table_id tid) && vecMatch (rowVec s o tid) w

/-- Bag equality as the specification words it (§4.5): the logical sizes
agree and, for every non-deleted row of `o1`, its multiplicity among the
rows of `o2` equals its multiplicity among the rows of `o1` itself. -/
def BagEq (s : SMTState) (o1 o2 : Output) : Prop :=
  logicalSize s o1 = logicalSize s o2 ∧
    ∀ tid < o1.bound, s.deleted o1.table_id tid = false →
      multiplicity s o2 (rowVec s o1 tid) = multiplicity s o1 (rowVec s o1 tid)

instance (s : SMTState) (o1 o2 : Output) : Decidable (BagEq s o1 o2) :=
  inferInstanceAs (Decidable (logicalSize s o1 = logicalSize s o2 ∧
    ∀ tid < o1.bound, s.deleted o1.table_id tid = false →
      multiplicity s o2 (rowVec s o1 tid) = multiplicity s o1 (rowVec s o1 tid)))

/-- The abstract rows of the non-deleted slots of an output, in slot
order. -/
def nonDeletedRows (s : SMTState) (o : Output) : List (List (Int × Bool)) :=
  ((List.range o.bound).filter fun tid => !(s.deleted o.table_id tid)).map (rowVec s o)

/-- Null-aware agreement of two optional cells; positions where either
expression yields no cell impose no constraint. -/
def cellsOk (a b : Option (Int × Bool)) : Bool :=
  match a, b with
  | some p, some q => pairMatchB p q
  | _, _ => true

/-- The positional sorted-columns constraint as the code enforces it:
restricted to row positions whose `o1` slot is not deleted. -/
def SortedPosEq (s : SMTState) (o1 o2 : Output) : Prop :=
  ∀ tid < min o1.bound o2.bound, s.deleted o1.table_id tid = false →
    ∀ e ∈ o1.expressions, cellsOk (exprCell s o1 e tid) (exprCell s o2 e tid) = true

instance (s : SMTState) (o1 o2 : Output) : Decidable (SortedPosEq s o1 o2) :=
  inferInstanceAs (Decidable (∀ tid < min o1.bound o2.bound,
    s.deleted o1.table_id tid = false →
      ∀ e ∈ o1.expressions, cellsOk (exprCell s o1 e tid) (exprCell s o2 e tid) = true))

/-- The positional sorted-columns constraint as claim C5 words it: at
every row position up to the smaller bound the expression cells must
agree, with no exemption for deleted `o1` slots. -/
def sortedPosUnguarded (s : SMTState) (o1 o2 : Output) : Bool :=
  (List.range (min o1.bound o2.bound)).all fun tid =>
    o1.expressions.all fun e => cellsOk (exprCell s o1 e tid) (exprCell s o2 e tid)

/-! ### String interning (`string_hash` / `lookup_string`) -/

/-- Lookup in an insertion-ordered association list, modelling Python
`dict` key lookup. -/
def dictLookup {κ ν : Type} [DecidableEq κ] : List (κ × ν) → κ → Option ν
  | [], _ => none
  | p :: t, k => if p.1 = k then some p.2 else dictLookup t k

/-- Update of an insertion-ordered association list, modelling Python
`dict` assignment: an existing key keeps its position and gets the new
value, a new key is appended at the end. -/
def dictInsert {κ ν : Type} [DecidableEq κ] : List (κ × ν) → κ → ν → List (κ × ν)
  | [], k, v => [(k, v)]
  | p :: t, k, v => if p.1 = k then (k, v) :: t else p :: dictInsert t k v

/-- Values of an insertion-ordered association list in order, modelling
`list(d.values())`. -/
def dictValues {κ ν : Type} (l : List (κ × ν)) : List ν :=
  l.map fun p => p.2

/-- Python values that can reach `string_hash`; the code calls `str(x)`
on non-string arguments (environment.py:96-97). -/
inductive PyVal where
  | strV : String → PyVal
  | intV : Int → PyVal
  | boolV : Bool → PyVal
  | noneV : PyVal
deriving DecidableEq

/-- Python `str()` on the modelled values. -/
def pyStr : PyVal → String
  | .strV s => s
  | .intV n => toString n
  | .boolV b => if b then "True" else "False"
  | .noneV => "None"

/-- Python whitespace as stripped by `int(str)`. -/
def isPySpace (c : Char) : Bool :=
  (c = ' ') || (c = '\t') || (c = '\n') || (c = '\r') || (c = '\x0b') || (c = '\x0c')

/-- Strip leading and trailing whitespace from a character list. -/
def trimChars (cs : List Char) : List Char :=
  ((cs.dropWhile isPySpace).reverse.dropWhile isPySpace).reverse

/-- Numeric value of a digit run. -/
def digitsVal (cs : List Char) : Nat :=
  cs.foldl (fun a c => a * 10 + (c.toNat - 48)) 0

/-- Python `int(string)`, the `try` branch of `string_hash`
(environment.py:102-103), modelled on its plain decimal fragment:
optional surrounding whitespace, an optional single sign, then a
non-empty run of decimal digits (digit-group underscores are not
modelled). Returns `none` where Python raises `ValueError`. -/
def pyIntParse (s : String) : Option Int :=
  match trimChars s.data with
  | [] => none
  | c :: cs =>
    let sgn : Int × List Char :=
      if c = '-' then (-1, cs) else if c = '+' then (1, cs) else (1, c :: cs)
    if !sgn.2.isEmpty && sgn.2.all Char.isDigit then
      some (sgn.1 * (digitsVal sgn.2 : Int))
    else none

/-- The two interning tables owned by the environment
(`string_hash_table` and `hash_string_table`). -/
structure InternTables where
  string_hash_table : List (String × Int)
  hash_string_table : List (Int × String)
deriving DecidableEq

/-- `Environment.string_hash` (environment.py:95-109): coerce the
argument to a string, consult the forward table, otherwise compute a code
(the integer value when the string parses as one, else the Python string
hash, supplied here as the abstract parameter `pyhash`) and record it in
both tables.  Returns the code and the updated tables. -/
def string_hash (pyhash : String → Int) (env : InternTables) (x : PyVal) : Int × InternTables :=
  let string := pyStr x
  match dictLookup env.string_hash_table string with
  | some h => (h, env)
  | none =>
    let h : Int :=
      match pyIntParse string with
      | some n => n
      | none => pyhash string
    (h, ⟨dictInsert env.string_hash_table string h,
         dictInsert env.hash_string_table h string⟩)

/-- `Environment.lookup_string` (environment.py:111-118): return the
interned string for a mapped code; for an unmapped code fall back to a
pseudo-string built from the value list and the code, or to the printed
code when the table is empty. -/
def lookup_string (env : InternTables) (h : Int) : String :=
  match dictLookup env.hash_string_table h with
  | some str => str
  | none =>
    let candidates := dictValues env.hash_string_table
    if 0 < candidates.length then
      candidates.getD (h % (candidates.length : Int)).toNat "" ++ toString h
    else toString h

/-! ### Schema loading (`load_schema`) and the environment lifecycle -/

/-- Python `str.lower()` on an ASCII character. -/
def pyLowerChar (c : Char) : Char :=
  if 65 ≤ c.toNat && c.toNat ≤ 90 then Char.ofNat (c.toNat + 32) else c

/-- Python `str.lower()` (ASCII fragment). -/
def pyLower (s : String) : String :=
  ⟨s.data.map pyLowerChar⟩

/-- Declaration of a `PKeys`/`Others` schema column: its `Name` and
`Type` fields. -/
structure ColDecl where
  name : String
  type : String
deriving DecidableEq, Inhabited

/-- Declaration of an `FKeys` schema column: `FName`, `PTable`, `PName`
and its own `Type` field (read in the enum case, environment.py:157). -/
structure FKeyDecl where
  fname : String
  ptable : Nat
  pname : String
  ftype : String
deriving DecidableEq, Inhabited

/-- One schema table: `TableName`, `PKeys`, `FKeys`, `Others`. -/
structure TableDecl where
  tableName : String
  pkeys : List ColDecl
  fkeys : List FKeyDecl
  others : List ColDecl
deriving DecidableEq, Inhabited

/-- Integrity-constraint entries appended to the caller's constraint
list: the tagged one-key dicts of environment.py. -/
inductive SchemaConstraint where
  | enumC : String → List String → SchemaConstraint
  | primaryC : List String → SchemaConstraint
  | eqC : String → String → SchemaConstraint
  | distinctC : List String → SchemaConstraint
  | otherC : Nat → SchemaConstraint
deriving DecidableEq

/-- `col['Type'].split(',')[0]` (environment.py:131). -/
def dataTypeOf (t : String) : String :=
  ⟨(splitOnChar ',' t.data).headI⟩

/-- `col['Type'].split(',')[1:]` (environment.py:133). -/
def enumValuesOf (t : String) : List String :=
  ((splitOnChar ',' t.data).tail).map fun l => ⟨l⟩

/-- Enum constraints produced by the `PKeys` loop of one table
(environment.py:129-138); every primary-key column is processed, with no
duplicate-name check. -/
def pkeyEnums (tname : String) (pkeys : List ColDecl) : List SchemaConstraint :=
  pkeys.filterMap fun col =>
    if dataTypeOf col.type = "enum" then
      some (.enumC (tname ++ "." ++ pyLower col.name) (enumValuesOf col.type))
    else none

/-- One step of the `FKeys` loop (environment.py:139-164), threading the
list of column names present so far and the enum constraints produced.
A column whose name is already present is skipped (`has_column`); enum
detection looks the referenced primary-key column up in the parent table
and, on `enum`, takes the value set from the foreign-key's own `Type`.
The later `column_schema in table_schema` membership test lives in
`polygon/schemas.py` (not among the sources) and is modelled as
column-name membership, which the preceding `has_column` check already
rules out. -/
def fkeyStep (schema : List TableDecl) (tname : String)
    (acc : List String × List SchemaConstraint) (col : FKeyDecl) :
    List String × List SchemaConstraint :=
  let cname := pyLower col.fname
  if acc.1.contains cname then acc
  else
    let pdata := ((schema.getD col.ptable default).pkeys.find? fun p =>
      decide (p.name = col.pname)).map fun p => dataTypeOf p.type
    let enums :=
      if pdata = some "enum" then
        [SchemaConstraint.enumC (tname ++ "." ++ cname) (enumValuesOf col.ftype)]
      else []
    (acc.1 ++ [cname], acc.2 ++ enums)

/-- One step of the `Others` loop (environment.py:165-183): skip names
already present, otherwise detect enum on the column's own `Type`. -/
def otherStep (tname : String)
    (acc : List String × List SchemaConstraint) (col : ColDecl) :
    List String × List SchemaConstraint :=
  let cname := pyLower col.name
  if acc.1.contains cname then acc
  else
    let enums :=
      if dataTypeOf col.type = "enum" then
        [SchemaConstraint.enumC (tname ++ "." ++ cname) (enumValuesOf col.type)]
      else []
    (acc.1 ++ [cname], acc.2 ++ enums)

/-- Enum constraints contributed by processing one table in the first
loop of `load_schema`, in `PKeys`, `FKeys`, `Others` order. -/
def tableEnumConstraints (schema : List TableDecl) (t : TableDecl) : List SchemaConstraint :=
  let tname := pyLower t.tableName
  let names1 := t.pkeys.map fun c => pyLower c.name
  let step2 := t.fkeys.foldl (fkeyStep schema tname) (names1, [])
  let step3 := t.others.foldl (otherStep tname) (step2.1, [])
  pkeyEnums tname t.pkeys ++ step2.2 ++ step3.2

/-- The first loop of `load_schema` over the tables
(environment.py:123-186), threading the growing `enum_constraints`
accumulator and the caller's constraint list, which is extended with the
whole accumulator once per table (environment.py:186). -/
def loadSchemaFold (schema : List TableDecl) :
    List TableDecl → List SchemaConstraint → List SchemaConstraint →
    List SchemaConstraint × List SchemaConstraint
  | [], enumAcc, cs => (enumAcc, cs)
  | t :: rest, enumAcc, cs =>
    let e := enumAcc ++ tableEnumConstraints schema t
    loadSchemaFold schema rest e (cs ++ e)

/-- Primary-key and foreign-key constraints appended for one table by the
second loop of `load_schema` (environment.py:189-202). -/
def tableKeyConstraints (schema : List TableDecl) (t : TableDecl) : List SchemaConstraint :=
  let tname := pyLower t.tableName
  (if t.pkeys.isEmpty then []
   else [SchemaConstraint.primaryC (t.pkeys.map fun c => tname ++ "." ++ pyLower c.name)]) ++
    t.fkeys.map fun col =>
      SchemaConstraint.eqC (tname ++ "." ++ pyLower col.fname)
        (pyLower (schema.getD col.ptable default).tableName ++ "." ++ pyLower col.pname)

/-- The full effect of `Environment.load_schema` on the caller-supplied
constraints list (environment.py:120-202). -/
def load_schema_constraints (schema : List TableDecl) (cs : List SchemaConstraint) :
    List SchemaConstraint :=
  (loadSchemaFold schema schema [] cs).2 ++ schema.flatMap (tableKeyConstraints schema)

/-- Closed form of what the first loop appends after the caller's list:
the `j`-th table iteration appends the enum constraints of every table up
to and including `j`. -/
def firstLoopAppends (schema : List TableDecl) : List SchemaConstraint :=
  (List.range schema.length).flatMap fun j =>
    (schema.take (j + 1)).flatMap (tableEnumConstraints schema)

/-- Per-check mutable state of the environment, with the fields
`Environment.clear` (environment.py:554-568) rebuilds.  Formulas are
modelled by their label sequence (the `FormulaManager` lives outside the
sources), the symbolic database by the list of allocated table ids. -/
structure EnvState where
  db_table_ids : List Int
  table_id_counter : Int
  string_hash_table : List (String × Int)
  hash_string_table : List (Int × String)
  formulas : List String
  constraints : List SchemaConstraint
  unsat_mutants : List Nat
deriving DecidableEq

/-- `Environment.clear` (environment.py:554-568): fresh database, counter
reset to `-1`, empty interning tables, fresh formula manager, then
`load_schema` (which allocates table ids `0..len(schema)-1` and mutates
the shared constraints list) and the re-encoded `ic` formula. -/
def clear (schema : List TableDecl) (env : EnvState) : EnvState :=
  ⟨(List.range schema.length).map fun i => (i : Int),
   (schema.length : Int) - 1,
   [], [],
   ["ic"],
   load_schema_constraints schema env.constraints,
   []⟩

/-- The four terminal verdicts of a check (spec §7). -/
inductive Verdict where
  | EQU | NEQ | ERR | TMO
deriving DecidableEq

/-- The 5-tuple returned by `Environment.check` (counterexample database
and timing abstracted to opaque payloads). -/
structure CheckOutcome where
  is_equivalent : Option Bool
  counterexample : Option Nat
  extra : Option Nat
  total_time : Option Nat
  status : Verdict
deriving DecidableEq

/-- The tail of `Environment.check` after the worker process has been
joined (environment.py:308-327): on `ERR` it returns immediately with no
timing and, crucially, without calling `clear`; every other verdict
computes the total time, calls `self.clear()` and returns the verdict's
tuple. -/
def check_tail (schema : List TableDecl) (env : EnvState) (status : Verdict)
    (cex elapsed : Nat) : EnvState × CheckOutcome :=
  if status = Verdict.ERR then
    (env, ⟨none, none, none, none, Verdict.ERR⟩)
  else
    let env2 := clear schema env
    match status with
    | Verdict.NEQ => (env2, ⟨some false, some cex, none, some elapsed, Verdict.NEQ⟩)
    | Verdict.TMO => (env2, ⟨none, none, none, some elapsed, Verdict.TMO⟩)
    | _ => (env2, ⟨some true, none, none, some elapsed, status⟩)

/-! ### Disambiguation (`Environment.disambiguate`) -/

/-- Python `int()` applied to a (rational) number, truncating toward
zero; models the numeral coercion in `Int(max(len(outputs) / num_groups
- group_range, 1))` and `Int(len(outputs) / num_groups + group_range)`
(environment.py:395-396), where `/` is Python float division. -/
def pyTruncQ (q : ℚ) : Int :=
  if 0 ≤ q then ⌊q⌋ else -⌊-q⌋

/-- The 0/1 indicator `If(SMTBelongsToGroup(tid, g), Int(1), Int(0))`. -/
def groupIndicator (belongs : Nat → Nat → Bool) (tid g : Nat) : Int :=
  if belongs tid g then 1 else 0

/-- Occupancy of group `g`: the sum of the per-output indicators
(environment.py:390-392). -/
def occupancy (belongs : Nat → Nat → Bool) (outputs : List Output) (g : Nat) : Int :=
  (outputs.map fun q => groupIndicator belongs q.table_id g).sum

/-- Lower occupancy bound `Int(max(len(outputs) / num_groups - group_range, 1))`. -/
def occLow (n : Nat) (group_range : ℚ) : Int :=
  pyTruncQ (max ((n : ℚ) / 2 - group_range) 1)

/-- Upper occupancy bound `Int(len(outputs) / num_groups + group_range)`. -/
def occHigh (n : Nat) (group_range : ℚ) : Int :=
  pyTruncQ ((n : ℚ) / 2 + group_range)

/-- Truth value of `And(disambiguation_cond)` (environment.py:361-406)
under an assignment: `num_groups` is the hard-coded 2, `belongs`
valuates the `SMTBelongsToGroup` booleans and `rep0`, `rep1` stand for
the two pre-created representative outputs (`create_empty_table` lives in
`polygon/utils.py`, outside the sources, so the representatives are
abstract outputs here).  Conjuncts, per query output: the `Or` over its
two indicators, the two `Implies(belongs, o1_eq_o2(output, rep))`, and
`Sum(indicators) == 1`; then per group the occupancy bounds; then the
pairwise `Not(o1_eq_o2(rep_g, rep_g'))` for distinct groups. -/
def disambiguation_cond (s : SMTState) (belongs : Nat → Nat → Bool)
    (outputs : List Output) (rep0 rep1 : Output) (group_range : ℚ) : Bool :=
  let reps := [rep0, rep1]
  (outputs.all fun q =>
    ((List.range 2).any fun g => belongs q.table_id g) &&
      ((List.range 2).all fun g =>
        !(belongs q.table_id g) || o1_eq_o2 s q (reps.getD g rep0)) &&
      (((List.range 2).map fun g => groupIndicator belongs q.table_id g).sum == 1)) &&
  ((List.range 2).all fun g =>
    decide (occLow outputs.length group_range ≤ occupancy belongs outputs g) &&
      decide (occupancy belongs outputs g ≤ occHigh outputs.length group_range)) &&
  ((List.range 2).all fun g => (List.range 2).all fun g' =>
    if g' = g then true else !(o1_eq_o2 s (reps.getD g rep0) (reps.getD g' rep0)))

/-! ### Concrete instances used by counterexamples and witnesses -/

/-- Assignment with nothing deleted, all values 0 and no nulls. -/
def sPlain : SMTState :=
  ⟨fun _ _ => false, fun _ _ _ => 0, fun _ _ _ => false, fun _ _ _ => (0, false)⟩

/-- Assignment where table 0 holds column values 1 then 2 and table 1
holds 2 then 1: equal bags, opposite order. -/
def sSwap : SMTState :=
  ⟨fun _ _ => false,
   fun t ti _ => if t = 0 then (if ti = 0 then 1 else 2) else (if ti = 0 then 2 else 1),
   fun _ _ _ => false,
   fun _ _ _ => (0, false)⟩

/-- Assignment where every row slot is deleted but the underlying cell
values of tables 0 and 1 differ (5 versus 7). -/
def sAllDel : SMTState :=
  ⟨fun _ _ => true, fun t _ _ => if t = 0 then 5 else 7, fun _ _ _ => false,
   fun _ _ _ => (0, false)⟩

/-- One-column, one-row-slot output on table 0. -/
def oA1 : Output := ⟨0, 1, [0], none, []⟩

/-- Two-column, one-row-slot output on table 1. -/
def oB2 : Output := ⟨1, 1, [0, 1], none, []⟩

/-- One-column, two-slot untagged output on table 0. -/
def oPlainA : Output := ⟨0, 2, [0], none, []⟩

/-- One-column, two-slot untagged output on table 1. -/
def oPlainB : Output := ⟨1, 2, [0], none, []⟩

/-- Sorted-tagged output on table 0 whose sort expression is column 1. -/
def oSortA : Output := ⟨0, 2, [0], some ["Sorted"], [PExpr.litInt 1]⟩

/-- Sorted-tagged output on table 1 whose sort expression is column 1. -/
def oSortB : Output := ⟨1, 2, [0], some ["Sorted"], [PExpr.litInt 1]⟩

/-- Sorted-tagged output on table 1 whose only expression is a boolean
literal, which the sorted branch skips. -/
def oSortBool : Output := ⟨1, 2, [0], some ["Sorted"], [PExpr.litBool true]⟩

/-- Sorted-tagged single-slot output on table 0. -/
def oDelA : Output := ⟨0, 1, [0], some ["Sorted"], [PExpr.litInt 1]⟩

/-- Sorted-tagged single-slot output on table 1. -/
def oDelB : Output := ⟨1, 1, [0], some ["Sorted"], [PExpr.litInt 1]⟩

/-- Environment state with a non-empty string-interning table, so that
`clear` visibly changes it. -/
def envC2 : EnvState := ⟨[], -1, [("a", 5)], [], [], [], []⟩

/-- Two-table schema whose first table has one enum primary-key column. -/
def schemaW : List TableDecl :=
  [⟨"T", [⟨"c", "enum,x,y"⟩], [], []⟩, ⟨"U", [], [], []⟩]

/-- Interning tables holding codes 3 and 9. -/
def internW : InternTables := ⟨[("abc", 3), ("xyz", 9)], [(3, "abc"), (9, "xyz")]⟩

/-- Group assignment putting every output in group 0. -/
def belongsW : Nat → Nat → Bool := fun _ g => g == 0

/-! ## General counting lemmas -/

theorem sum_ite_eq_countP {α : Type} (p : α → Bool) (l : List α) :
    (l.map fun i => if p i then (1 : Int) else 0).sum = (l.countP p : Int) := by
  induction l with
  | nil => simp
  | cons a t ih =>
    simp only [List.map_cons, List.sum_cons, List.countP_cons, ih]
    cases h : p a <;> simp [h] <;> omega

theorem countP_sym_rel {α : Type} (R : α → α → Bool) (G : α → Prop)
    (hsymm : ∀ a b, G a → G b → R a b = true → R b a = true)
    (htrans : ∀ a b c, G a → G b → G c → R a b = true → R b c = true → R a c = true)
    (hrefl : ∀ a, G a → R a a = true) :
    ∀ A B : List α, (∀ a ∈ A, G a) → (∀ b ∈ B, G b) →
      A.length = B.length →
      (∀ a ∈ A, B.countP (R a) = A.countP (R a)) →
      ∀ b ∈ B, A.countP (R b) = B.countP (R b) := by
  intro A
  induction A with
  | nil =>
    intro B _ _ hlen _ b hb
    have hB : B = [] := List.eq_nil_of_length_eq_zero hlen.symm
    subst hB
    cases hb
  | cons a0 A' ih =>
    intro B hGA hGB hlen hmul b hb
    have hGa0 : G a0 := hGA a0 (by simp)
    have hpos : 0 < B.countP (R a0) := by
      rw [hmul a0 (by simp)]
      exact List.countP_pos_iff.mpr ⟨a0, by simp, hrefl a0 hGa0⟩
    obtain ⟨b0, hb0B, hRb0⟩ := List.countP_pos_iff.mp hpos
    obtain ⟨B1, B2, rfl⟩ := List.append_of_mem hb0B
    have hGb0 : G b0 := hGB b0 hb0B
    have hco : ∀ x, G x → R x a0 = R x b0 := by
      intro x hx
      cases hra : R x a0 with
      | true => exact (htrans x a0 b0 hx hGa0 hGb0 hra hRb0).symm
      | false =>
        cases hrb : R x b0 with
        | true =>
          have : R x a0 = true :=
            htrans x b0 a0 hx hGb0 hGa0 hrb (hsymm a0 b0 hGa0 hGb0 hRb0)
          rw [hra] at this
          cases this
        | false => rfl
    have hco2 : ∀ x, G x → R a0 x = R b0 x := by
      intro x hx
      cases hra : R a0 x with
      | true => exact (htrans b0 a0 x hGb0 hGa0 hx (hsymm a0 b0 hGa0 hGb0 hRb0) hra).symm
      | false =>
        cases hrb : R b0 x with
        | true =>
          have : R a0 x = true := htrans a0 b0 x hGa0 hGb0 hx hRb0 hrb
          rw [hra] at this
          cases this
        | false => rfl
    have hsplit : ∀ p : α → Bool,
        (B1 ++ b0 :: B2).countP p = (B1 ++ B2).countP p + (if p b0 then 1 else 0) := by
      intro p
      rw [List.countP_append, List.countP_cons, List.countP_append]
      omega
    have hGA' : ∀ a ∈ A', G a := fun a ha => hGA a (by simp [ha])
    have hGB' : ∀ x ∈ B1 ++ B2, G x := by
      intro x hx
      rcases List.mem_append.mp hx with h | h <;> exact hGB x (by simp [h])
    have hlen' : A'.length = (B1 ++ B2).length := by
      simp only [List.length_cons, List.length_append] at hlen ⊢
      omega
    have hmul' : ∀ a ∈ A', (B1 ++ B2).countP (R a) = A'.countP (R a) := by
      intro a ha
      have h1 := hmul a (by simp [ha])
      rw [hsplit (R a), List.countP_cons] at h1
      rw [← hco a (hGA' a ha)] at h1
      exact Nat.add_right_cancel h1
    have ihall := ih (B1 ++ B2) hGA' hGB' hlen' hmul'
    have hGb : G b := hGB b hb
    rw [List.countP_cons, hsplit (R b), ← hco b hGb]
    have hmain : A'.countP (R b) = (B1 ++ B2).countP (R b) := by
      rcases List.mem_append.mp hb with hbB | hbc
      · exact ihall b (List.mem_append.mpr (Or.inl hbB))
      · rcases List.mem_cons.mp hbc with hbe | hbB2
        · subst hbe
          have hA : A'.countP (R b) = A'.countP (R a0) :=
            List.countP_congr fun x hx => by rw [hco2 x (hGA' x hx)]
          have hB : (B1 ++ B2).countP (R b) = (B1 ++ B2).countP (R a0) :=
            List.countP_congr fun x hx => by rw [hco2 x (hGB' x hx)]
          rw [hA, hB]
          have h1 := hmul a0 (by simp)
          rw [hsplit (R a0), List.countP_cons, hRb0, hrefl a0 hGa0] at h1
          exact (Nat.add_right_cancel h1).symm
        · exact ihall b (List.mem_append.mpr (Or.inr hbB2))
    rw [hmain]

/-! ## Null-aware cell and row matching is an equivalence -/

theorem pairMatchB_iff (p q : Int × Bool) :
    pairMatchB p q = true ↔
      (p.2 = true ∧ q.2 = true) ∨ (p.2 = false ∧ q.2 = false ∧ p.1 = q.1) := by
  cases hp : p.2 <;> cases hq : q.2 <;> simp [pairMatchB, hp, hq]

theorem pairMatchB_refl (p : Int × Bool) : pairMatchB p p = true := by
  cases hp : p.2 <;> simp [pairMatchB, hp]

theorem pairMatchB_symm (p q : Int × Bool) : pairMatchB p q = pairMatchB q p := by
  rw [Bool.eq_iff_iff, pairMatchB_iff, pairMatchB_iff]
  constructor
  · rintro (⟨h1, h2⟩ | ⟨h1, h2, h3⟩)
    · exact Or.inl ⟨h2, h1⟩
    · exact Or.inr ⟨h2, h1, h3.symm⟩
  · rintro (⟨h1, h2⟩ | ⟨h1, h2, h3⟩)
    · exact Or.inl ⟨h2, h1⟩
    · exact Or.inr ⟨h2, h1, h3.symm⟩

theorem pairMatchB_trans {p q r : Int × Bool}
    (h1 : pairMatchB p q = true) (h2 : pairMatchB q r = true) :
    pairMatchB p r = true := by
  rw [pairMatchB_iff] at h1 h2 ⊢
  rcases h1 with ⟨a1, a2⟩ | ⟨a1, a2, a3⟩ <;> rcases h2 with ⟨b1, b2⟩ | ⟨b1, b2, b3⟩
  · exact Or.inl ⟨a1, b2⟩
  · rw [a2] at b1; cases b1
  · rw [a2] at b1; cases b1
  · exact Or.inr ⟨a1, b2, a3.trans b3⟩

theorem vecMatch_refl (a : List (Int × Bool)) : vecMatch a a = true := by
  induction a with
  | nil => rfl
  | cons x t ih =>
    simp only [vecMatch, List.zip_cons_cons, List.all_cons, Bool.and_eq_true] at ih ⊢
    exact ⟨pairMatchB_refl x, ih⟩

theorem vecMatch_symm (a b : List (Int × Bool)) : vecMatch a b = vecMatch b a := by
  induction a generalizing b with
  | nil => cases b <;> rfl
  | cons x t ih =>
    cases b with
    | nil => rfl
    | cons y u =>
      simp only [vecMatch, List.zip_cons_cons, List.all_cons]
      rw [show pairMatchB (x, y).1 (x, y).2 = pairMatchB x y from rfl,
        show pairMatchB (y, x).1 (y, x).2 = pairMatchB y x from rfl,
        pairMatchB_symm x y]
      have ih2 := ih u
      simp only [vecMatch] at ih2
      rw [ih2]

theorem vecMatch_trans :
    ∀ a b c : List (Int × Bool), a.length = b.length → b.length = c.length →
      vecMatch a b = true → vecMatch b c = true → vecMatch a c = true := by
  intro a
  induction a with
  | nil =>
    intro b c hab hbc _ _
    have hb : b = [] := List.eq_nil_of_length_eq_zero hab.symm
    subst hb
    have hc : c = [] := List.eq_nil_of_length_eq_zero hbc.symm
    subst hc
    rfl
  | cons x t ih =>
    intro b c hab hbc h1 h2
    cases b with
    | nil => cases hab
    | cons y u =>
      cases c with
      | nil => cases hbc
      | cons z v =>
        simp only [vecMatch, List.zip_cons_cons, List.all_cons, Bool.and_eq_true] at h1 h2 ⊢
        refine ⟨pairMatchB_trans h1.1 h2.1, ?_⟩
        have := ih u v (by simpa using hab) (by simpa using hbc) h1.2 h2.2
        simpa [vecMatch] using this

/-! ## Bridges between the formula values and the specification predicates -/

theorem o_size_eq_logicalSize (s : SMTState) (o : Output) :
    o_size s o = (logicalSize s o : Int) := by
  unfold o_size logicalSize
  exact sum_ite_eq_countP _ _

theorem o_size_pos_iff (s : SMTState) (o : Output) :
    0 < o_size s o ↔ hasNonDeletedRow s o = true := by
  rw [o_size_eq_logicalSize]
  unfold logicalSize hasNonDeletedRow
  rw [Int.natCast_pos, List.countP_pos_iff, List.any_eq_true]

theorem zip_all_cells (s : SMTState) (ta ti tb tt : Nat) :
    ∀ xs ys : List Int,
      ((xs.zip (ys.map fun c => (tb, tt, c))).all fun p => cellsMatch s ta ti p.1 p.2) =
        vecMatch (xs.map fun c => (s.val ta ti c, s.null ta ti c))
          (ys.map fun c => (s.val tb tt c, s.null tb tt c)) := by
  intro xs
  induction xs with
  | nil => intro ys; cases ys <;> rfl
  | cons x xt ih =>
    intro ys
    cases ys with
    | nil => rfl
    | cons y yt =>
      simp only [List.map_cons, List.zip_cons_cons, List.all_cons, vecMatch]
      congr 1
      exact ih yt

theorem tupleEq_eq_vecMatch (s : SMTState) (r o1 : Output) (ri tid : Nat) :
    tupleEq s r ri (rowTriples o1 tid) =
      (!(s.deleted r.table_id ri) && vecMatch (rowVec s r ri) (rowVec s o1 tid)) := by
  unfold tupleEq rowTriples rowVec
  rw [zip_all_cells]

theorem f_multiplicity_eq (s : SMTState) (r o1 : Output) (tid : Nat) :
    f_multiplicity s r (rowTriples o1 tid) = (multiplicity s r (rowVec s o1 tid) : Int) := by
  unfold f_multiplicity multiplicity
  rw [sum_ite_eq_countP, Nat.cast_inj]
  exact List.countP_congr fun ri _ => by rw [tupleEq_eq_vecMatch]

theorem lateral_bag_eq_iff (s : SMTState) (o1 o2 : Output) :
    lateral_bag_eq s o1 o2 = true ↔
      ∀ tid < o1.bound, s.deleted o1.table_id tid = false →
        multiplicity s o2 (rowVec s o1 tid) = multiplicity s o1 (rowVec s o1 tid) := by
  unfold lateral_bag_eq
  rw [List.all_eq_true]
  constructor
  · intro h tid htid hdel
    have h2 := h tid (List.mem_range.mpr htid)
    rw [hdel] at h2
    simp only [Bool.false_or, beq_iff_eq, f_multiplicity_eq, Nat.cast_inj] at h2
    exact h2.symm
  · intro h tid hmem
    cases hdel : s.deleted o1.table_id tid
    · simp only [hdel, Bool.false_or, beq_iff_eq, f_multiplicity_eq, Nat.cast_inj]
      exact (h tid (List.mem_range.mp hmem) hdel).symm
    · simp [hdel]

theorem sorted_columns_iff (s : SMTState) (o1 o2 : Output) :
    sorted_columns_list_eq s o1 o2 = true ↔ SortedPosEq s o1 o2 := by
  unfold sorted_columns_list_eq SortedPosEq
  rw [List.all_eq_true]
  constructor
  · intro h tid htid hdel e he
    have h2 := List.all_eq_true.mp (h tid (List.mem_range.mpr htid)) e he
    unfold cellsOk
    cases h1 : exprCell s o1 e tid <;> cases hq : exprCell s o2 e tid <;>
      rw [h1, hq] at h2 <;> simp_all
  · intro h tid hmem
    rw [List.all_eq_true]
    intro e he
    cases hdel : s.deleted o1.table_id tid
    · have h2 := h tid (List.mem_range.mp hmem) hdel e he
      unfold cellsOk at h2
      cases h1 : exprCell s o1 e tid <;> cases hq : exprCell s o2 e tid <;>
        rw [h1, hq] at h2 <;> simp_all
    · cases h1 : exprCell s o1 e tid <;> cases hq : exprCell s o2 e tid <;> simp [hdel]

theorem o1_eq_o2_eq_true_iff (s : SMTState) (o1 o2 : Output)
    (hcols : o1.columns.length = o2.columns.length) :
    o1_eq_o2 s o1 o2 = true ↔
      (BagEq s o1 o2 ∧
        ((isSorted o1 = true ∧ isSorted o2 = true) → SortedPosEq s o1 o2)) := by
  unfold o1_eq_o2
  rw [if_pos hcols]
  unfold BagEq
  cases hs : isSorted o1 && isSorted o2
  · have hns : ¬ (isSorted o1 = true ∧ isSorted o2 = true) := by
      intro ⟨h1, h2⟩
      rw [h1, h2] at hs
      cases hs
    simp only [hs, Bool.false_eq_true, if_false, Bool.and_true, Bool.and_eq_true,
      decide_eq_true_eq, lateral_bag_eq_iff, o_size_eq_logicalSize, Nat.cast_inj]
    exact ⟨fun ⟨h1, h2⟩ => ⟨⟨h1, h2⟩, fun hc => absurd hc hns⟩, fun ⟨⟨h1, h2⟩, _⟩ => ⟨h1, h2⟩⟩
  · have hys : isSorted o1 = true ∧ isSorted o2 = true := by
      cases h1 : isSorted o1 <;> cases h2 : isSorted o2 <;> rw [h1, h2] at hs <;> simp_all
    simp only [hs, if_true, Bool.and_eq_true, decide_eq_true_eq, lateral_bag_eq_iff,
      o_size_eq_logicalSize, Nat.cast_inj, sorted_columns_iff]
    exact ⟨fun ⟨⟨h1, h2⟩, h3⟩ => ⟨⟨h1, h2⟩, fun _ => h3⟩, fun ⟨⟨h1, h2⟩, h3⟩ => ⟨⟨h1, h2⟩, h3 hys⟩⟩

/-! ## Symmetry of bag equality -/

theorem length_nonDeletedRows (s : SMTState) (o : Output) :
    (nonDeletedRows s o).length = logicalSize s o := by
  simp [nonDeletedRows, logicalSize, List.countP_eq_length_filter]

theorem mem_nonDeletedRows {s : SMTState} {o : Output} {v : List (Int × Bool)} :
    v ∈ nonDeletedRows s o ↔
      ∃ tid < o.bound, s.deleted o.table_id tid = false ∧ v = rowVec s o tid := by
  unfold nonDeletedRows
  simp only [List.mem_map, List.mem_filter, List.mem_range, Bool.not_eq_eq_eq_not,
    Bool.not_true]
  constructor
  · rintro ⟨tid, ⟨htid, hdel⟩, rfl⟩
    exact ⟨tid, htid, hdel, rfl⟩
  · rintro ⟨tid, htid, hdel, rfl⟩
    exact ⟨tid, ⟨htid, hdel⟩, rfl⟩

theorem length_of_mem_nonDeletedRows {s : SMTState} {o : Output} {v : List (Int × Bool)}
    (hv : v ∈ nonDeletedRows s o) : v.length = o.columns.length := by
  obtain ⟨tid, _, _, rfl⟩ := mem_nonDeletedRows.mp hv
  simp [rowVec]

theorem multiplicity_eq_countP_rows (s : SMTState) (o : Output) (w : List (Int × Bool)) :
    multiplicity s o w = (nonDeletedRows s o).countP fun v => vecMatch v w := by
  unfold multiplicity nonDeletedRows
  rw [List.countP_map, List.countP_filter]
  exact List.countP_congr fun t _ => by
    simp [Function.comp, Bool.and_eq_true, and_comm]

theorem countP_vecMatch_flip (L : List (List (Int × Bool))) (w : List (Int × Bool)) :
    (L.countP fun v => vecMatch v w) = L.countP (vecMatch w) := by
  exact List.countP_congr fun v _ => by rw [vecMatch_symm]

theorem bagEq_symm {s : SMTState} {o1 o2 : Output}
    (hcols : o1.columns.length = o2.columns.length) (h : BagEq s o1 o2) :
    BagEq s o2 o1 := by
  obtain ⟨hsize, hmul⟩ := h
  refine ⟨hsize.symm, ?_⟩
  intro tid htid hdel
  have hGA : ∀ v ∈ nonDeletedRows s o1, v.length = o1.columns.length :=
    fun v hv => length_of_mem_nonDeletedRows hv
  have hGB : ∀ v ∈ nonDeletedRows s o2, v.length = o1.columns.length :=
    fun v hv => (length_of_mem_nonDeletedRows hv).trans hcols.symm
  have hlen : (nonDeletedRows s o1).length = (nonDeletedRows s o2).length := by
    rw [length_nonDeletedRows, length_nonDeletedRows, hsize]
  have hmul' : ∀ a ∈ nonDeletedRows s o1,
      (nonDeletedRows s o2).countP (vecMatch a) = (nonDeletedRows s o1).countP (vecMatch a) := by
    intro a ha
    obtain ⟨t, ht, hd, rfl⟩ := mem_nonDeletedRows.mp ha
    have h2 := hmul t ht hd
    rw [multiplicity_eq_countP_rows, multiplicity_eq_countP_rows,
      countP_vecMatch_flip, countP_vecMatch_flip] at h2
    exact h2
  have hall := countP_sym_rel vecMatch (fun v => v.length = o1.columns.length)
    (fun a b _ _ hab => (vecMatch_symm b a).trans hab)
    (fun a b c ha hb hc => vecMatch_trans a b c (ha.trans hb.symm) (hb.trans hc.symm))
    (fun a _ => vecMatch_refl a)
    (nonDeletedRows s o1) (nonDeletedRows s o2) hGA hGB hlen hmul'
  have hw : rowVec s o2 tid ∈ nonDeletedRows s o2 :=
    mem_nonDeletedRows.mpr ⟨tid, htid, hdel, rfl⟩
  have h2 := hall (rowVec s o2 tid) hw
  rw [multiplicity_eq_countP_rows, multiplicity_eq_countP_rows,
    countP_vecMatch_flip, countP_vecMatch_flip]
  exact h2

/-! ## Claim C1: the `neq` goal for differing column counts -/

/-- Claim C1, counterexample: the claim states that for outputs with
differing column counts the asserted goal `Not(o1_eq_o2)` is true exactly
when at least one side has a non-deleted row.  At the concrete assignment
`sPlain` (nothing deleted) with a 1-column and a 2-column output, both
sides have a non-deleted row, yet `Not(o1_eq_o2)` evaluates to false:
the code returns `Or(o1_size > 0, o2_size > 0)` as the *equality*
formula, so its negation holds exactly when both sides are empty. -/
theorem c1_counterexample :
    ¬ ((neq_goal sPlain oA1 oB2 = true) ↔
      (hasNonDeletedRow sPlain oA1 = true ∨ hasNonDeletedRow sPlain oB2 = true)) := by
  decide

/-- Claim C1, amended: for every pair of symbolic outputs whose column
counts differ, the goal `Not(o1_eq_o2(o1, o2))` asserted under label
`neq` is true exactly when NEITHER side has a non-deleted row, i.e.
`o1_eq_o2` itself is the disjunction "some side is non-empty". -/
theorem c1_amended (s : SMTState) (o1 o2 : Output)
    (hcols : o1.columns.length ≠ o2.columns.length) :
    neq_goal s o1 o2 = true ↔
      (hasNonDeletedRow s o1 = false ∧ hasNonDeletedRow s o2 = false) := by
  unfold neq_goal o1_eq_o2
  rw [if_neg hcols]
  simp only [Bool.not_eq_true', Bool.or_eq_false_iff, decide_eq_false_iff_not,
    o_size_pos_iff, Bool.not_eq_true]

/-- Claim C1, witness: the amended theorem evaluated at the concrete
1-column/2-column pair under `sPlain`. -/
theorem c1_amended_witness :
    neq_goal sPlain oA1 oB2 = true ↔
      (hasNonDeletedRow sPlain oA1 = false ∧ hasNonDeletedRow sPlain oB2 = false) :=
  c1_amended sPlain oA1 oB2 (by decide)

/-! ## Claim C3: bag equality for equal column counts -/

/-- Claim C3, counterexample: the claim states that for every pair with
equal column counts `o1_eq_o2` holds exactly when sizes agree and every
retained row of `o1` has equal multiplicities on both sides.  At `sSwap`
the Sorted-tagged outputs `oSortA` (values 1,2) and `oSortB` (values 2,1)
have equal column counts and are bag-equal, yet `o1_eq_o2` is false,
because the code conjoins an additional positional constraint when both
outputs carry the `"Sorted"` lineage tag. -/
theorem c3_counterexample :
    ¬ (o1_eq_o2 sSwap oSortA oSortB = true ↔ BagEq sSwap oSortA oSortB) := by
  decide

/-- Claim C3, amended: for every pair of symbolic outputs with equal
column counts, provided not both carry the `"Sorted"` lineage tag, the
equality formula `o1_eq_o2` holds exactly when the logical sizes agree
and every non-deleted row of `o1` has the same multiplicity among the
rows of `o2` as among the rows of `o1` itself (rows matching null-aware
cell by cell). -/
theorem c3_amended (s : SMTState) (o1 o2 : Output)
    (hcols : o1.columns.length = o2.columns.length)
    (hns : ¬ (isSorted o1 = true ∧ isSorted o2 = true)) :
    o1_eq_o2 s o1 o2 = true ↔ BagEq s o1 o2 := by
  rw [o1_eq_o2_eq_true_iff s o1 o2 hcols]
  exact ⟨fun h => h.1, fun h => ⟨h, fun hc => absurd hc hns⟩⟩

/-- Claim C3, witness: the amended theorem evaluated at the untagged
one-column outputs `oPlainA`, `oPlainB` under `sSwap`. -/
theorem c3_amended_witness :
    o1_eq_o2 sSwap oPlainA oPlainB = true ↔ BagEq sSwap oPlainA oPlainB :=
  c3_amended sSwap oPlainA oPlainB (by decide) (by decide)

/-! ## Claim C4: symmetry of the oracle -/

/-- Claim C4, counterexample: the claim states `o1_eq_o2` is symmetric
for any column counts and any lineage tags.  With both outputs
Sorted-tagged, bag-equal but oppositely ordered, and the declared
expression list of one side a skipped boolean literal, the two
orientations disagree: the positional check always evaluates
`o1.node.expressions` on both sides. -/
theorem c4_counterexample :
    o1_eq_o2 sSwap oSortA oSortBool = false ∧ o1_eq_o2 sSwap oSortBool oSortA = true := by
  decide

/-- Claim C4, amended: the oracle's predicate is symmetric whenever not
both outputs carry the `"Sorted"` lineage tag: for any column counts,
`o1_eq_o2 s o1 o2 = o1_eq_o2 s o2 o1` (hence the negated goal is
symmetric as well on such pairs). -/
theorem c4_amended (s : SMTState) (o1 o2 : Output)
    (hns : ¬ (isSorted o1 = true ∧ isSorted o2 = true)) :
    o1_eq_o2 s o1 o2 = o1_eq_o2 s o2 o1 := by
  by_cases hcols : o1.columns.length = o2.columns.length
  · rw [Bool.eq_iff_iff, o1_eq_o2_eq_true_iff s o1 o2 hcols,
      o1_eq_o2_eq_true_iff s o2 o1 hcols.symm]
    have hns2 : ¬ (isSorted o2 = true ∧ isSorted o1 = true) := fun h => hns ⟨h.2, h.1⟩
    constructor
    · rintro ⟨hb, _⟩
      exact ⟨bagEq_symm hcols hb, fun hc => absurd hc hns2⟩
    · rintro ⟨hb, _⟩
      exact ⟨bagEq_symm hcols.symm hb, fun hc => absurd hc hns⟩
  · unfold o1_eq_o2
    rw [if_neg hcols, if_neg (fun h => hcols h.symm)]
    exact Bool.or_comm _ _

/-- Claim C4, witness: the amended symmetry evaluated at the untagged
one-column outputs under `sSwap`. -/
theorem c4_amended_witness :
    o1_eq_o2 sSwap oPlainA oPlainB = o1_eq_o2 sSwap oPlainB oPlainA :=
  c4_amended sSwap oPlainA oPlainB (by decide)

/-! ## Claim C5: the Sorted positional constraint -/

/-- Claim C5, counterexample: the claim states that for equal column
counts with both outputs Sorted-tagged, `o1_eq_o2` equals bag equality
conjoined with an unguarded positional constraint over every row position
up to the smaller bound.  At `sAllDel` every slot of both single-slot
outputs is deleted and the underlying cells differ (5 vs 7): the code's
formula is true (the positional conjunct is guarded by the `o1` slot not
being deleted) while the claimed unguarded positional constraint is
false. -/
theorem c5_counterexample :
    ¬ (o1_eq_o2 sAllDel oDelA oDelB = true ↔
      (BagEq sAllDel oDelA oDelB ∧ sortedPosUnguarded sAllDel oDelA oDelB = true)) := by
  decide

/-- Claim C5, amended: for every pair of symbolic outputs with equal
column counts that both carry the `"Sorted"` lineage tag, `o1_eq_o2`
conjoins, in addition to the bag-equality constraint, a positional
constraint: for each row position up to the smaller of the two bounds at
which the `o1` slot is not deleted, the cells of the declared
sort/select expressions (boolean literals yielding none) must match
null-aware between `o1` and `o2`. -/
theorem c5_amended (s : SMTState) (o1 o2 : Output)
    (hcols : o1.columns.length = o2.columns.length)
    (hs1 : isSorted o1 = true) (hs2 : isSorted o2 = true) :
    o1_eq_o2 s o1 o2 = true ↔ (BagEq s o1 o2 ∧ SortedPosEq s o1 o2) := by
  rw [o1_eq_o2_eq_true_iff s o1 o2 hcols]
  exact ⟨fun h => ⟨h.1, h.2 ⟨hs1, hs2⟩⟩, fun h => ⟨h.1, fun _ => h.2⟩⟩

/-- Claim C5, witness: the amended theorem evaluated at the Sorted
outputs `oSortA`, `oSortB` under `sSwap`. -/
theorem c5_amended_witness :
    o1_eq_o2 sSwap oSortA oSortB = true ↔
      (BagEq sSwap oSortA oSortB ∧ SortedPosEq sSwap oSortA oSortB) :=
  c5_amended sSwap oSortA oSortB (by decide) (by decide) (by decide)

/-! ## Claim C2: per-check state is reset at the end of a check -/

/-- Claim C2, counterexample: the claim states every call to `check`
ends by rebuilding all per-check state via `clear` regardless of which
of the four terminal verdicts was reached.  On the `ERR` verdict, `check`
returns before `self.clear()` is called (environment.py:313-318): a
non-empty string-interning table survives the check untouched. -/
theorem c2_counterexample :
    ¬ ((check_tail [] envC2 Verdict.ERR 0 0).1 = clear [] envC2) := by
  decide

/-- Claim C2, amended: a check whose verdict is `EQU`, `NEQ` or `TMO`
ends with the whole per-check state (symbolic database, constraint set,
string-interning tables, table-id counter) rebuilt via `clear`; only the
`ERR` verdict returns with the environment untouched. -/
theorem c2_amended (schema : List TableDecl) (env : EnvState) (status : Verdict)
    (cex elapsed : Nat) (hst : status ≠ Verdict.ERR) :
    (check_tail schema env status cex elapsed).1 = clear schema env := by
  unfold check_tail
  rw [if_neg hst]
  cases status <;> rfl

/-- Claim C2, witness: the amended theorem at the concrete environment
`envC2` with the `TMO` verdict. -/
theorem c2_amended_witness :
    (check_tail [] envC2 Verdict.TMO 0 3).1 = clear [] envC2 :=
  c2_amended [] envC2 Verdict.TMO 0 3 (by decide)

/-! ## Dictionary lemmas for the interning tables -/

theorem dictLookup_insert_self {κ ν : Type} [DecidableEq κ]
    (l : List (κ × ν)) (k : κ) (v : ν) :
    dictLookup (dictInsert l k v) k = some v := by
  induction l with
  | nil => simp [dictInsert, dictLookup]
  | cons a t ih =>
    by_cases h : a.1 = k
    · simp [dictInsert, dictLookup, h]
    · simp [dictInsert, dictLookup, h, ih]

theorem dictLookup_insert_ne {κ ν : Type} [DecidableEq κ]
    (l : List (κ × ν)) (k : κ) (v : ν) (k' : κ) (h : k' ≠ k) :
    dictLookup (dictInsert l k v) k' = dictLookup l k' := by
  induction l with
  | nil =>
    show (if k = k' then some v else dictLookup [] k') = dictLookup ([] : List (κ × ν)) k'
    rw [if_neg (show ¬ k = k' from fun hh => h hh.symm)]
  | cons a t ih =>
    by_cases ha : a.1 = k
    · have hak : ¬ a.1 = k' := fun hh => h (hh.symm.trans ha)
      have hkk : ¬ k = k' := fun hh => h hh.symm
      simp [dictInsert, dictLookup, ha, hak, hkk]
    · simp [dictInsert, dictLookup, ha, ih]

/-! ## Claim C6: the interning invariant of string_hash -/

/-- Claim C6, counterexample: the claim includes forward injectivity
(distinct strings receive distinct codes).  Interning `"01"` and then
`"1"` from empty tables assigns both the code 1, because every string
parsing as a decimal integer is coded by that integer. -/
theorem c6_counterexample :
    (string_hash (fun _ => 0) ⟨[], []⟩ (PyVal.strV "01")).1 =
        (string_hash (fun _ => 0)
          (string_hash (fun _ => 0) ⟨[], []⟩ (PyVal.strV "01")).2 (PyVal.strV "1")).1 ∧
      "01" ≠ "1" := by
  decide

/-- Claim C6, amended: `string_hash` maintains the mapping as a function
assigning each string one code, consulted and never recomputed: a call
on an interned string returns the stored code and leaves both tables
untouched; any call leaves its argument interned at the returned code;
and no call changes the code of any other string. -/
theorem c6_amended :
    (∀ (pyhash : String → Int) (env : InternTables) (x : PyVal) (h : Int),
      dictLookup env.string_hash_table (pyStr x) = some h →
        string_hash pyhash env x = (h, env)) ∧
    (∀ (pyhash : String → Int) (env : InternTables) (x : PyVal),
      dictLookup (string_hash pyhash env x).2.string_hash_table (pyStr x) =
        some (string_hash pyhash env x).1) ∧
    (∀ (pyhash : String → Int) (env : InternTables) (x : PyVal) (s' : String),
      s' ≠ pyStr x →
        dictLookup (string_hash pyhash env x).2.string_hash_table s' =
          dictLookup env.string_hash_table s') := by
  refine ⟨?_, ?_, ?_⟩
  · intro ph env x h hl
    simp only [string_hash, hl]
  · intro ph env x
    cases hl : dictLookup env.string_hash_table (pyStr x)
    · simp only [string_hash, hl]
      exact dictLookup_insert_self _ _ _
    · simp only [string_hash, hl]
  · intro ph env x s' hne
    cases hl : dictLookup env.string_hash_table (pyStr x)
    · simp only [string_hash, hl]
      exact dictLookup_insert_ne _ _ _ _ hne
    · simp only [string_hash, hl]

/-- Claim C6, witness: the amended theorem's consult-only part evaluated
at the concrete table `internW` holding `"abc" ↦ 3`. -/
theorem c6_amended_witness :
    string_hash (fun _ => 0) internW (PyVal.strV "abc") = (3, internW) :=
  c6_amended.1 (fun _ => 0) internW (PyVal.strV "abc") 3 (by decide)

/-! ## Claim C8: lookup_string is total and deterministic -/

/-- Claim C8: `lookup_string` returns the interned string for a mapped
code; for an unmapped code with a non-empty reverse table the index
`code % len` is always in bounds and the result is the indexed value
concatenated with the printed code; for an empty reverse table it is the
printed code; and the result depends only on the code and the reverse
table. -/
theorem c8_lookup_string :
    (∀ (env : InternTables) (h : Int) (str : String),
      dictLookup env.hash_string_table h = some str → lookup_string env h = str) ∧
    (∀ (env : InternTables) (h : Int),
      dictLookup env.hash_string_table h = none →
        0 < (dictValues env.hash_string_table).length →
          ((h % ((dictValues env.hash_string_table).length : Int)).toNat <
              (dictValues env.hash_string_table).length ∧
            lookup_string env h =
              (dictValues env.hash_string_table).getD
                  (h % ((dictValues env.hash_string_table).length : Int)).toNat "" ++
                toString h)) ∧
    (∀ (env : InternTables) (h : Int),
      dictLookup env.hash_string_table h = none →
        dictValues env.hash_string_table = [] → lookup_string env h = toString h) ∧
    (∀ (env env' : InternTables) (h : Int),
      env.hash_string_table = env'.hash_string_table →
        lookup_string env h = lookup_string env' h) := by
  refine ⟨?_, ?_, ?_, ?_⟩
  · intro env h str hl
    unfold lookup_string
    rw [hl]
  · intro env h hl hpos
    constructor
    · have h0 : 0 ≤ h % ((dictValues env.hash_string_table).length : Int) :=
        Int.emod_nonneg h (by exact_mod_cast hpos.ne')
      have h1 : h % ((dictValues env.hash_string_table).length : Int) <
          ((dictValues env.hash_string_table).length : Int) :=
        Int.emod_lt_of_pos h (by exact_mod_cast hpos)
      omega
    · unfold lookup_string
      rw [hl, if_pos hpos]
  · intro env h hl hemp
    unfold lookup_string
    rw [hl, hemp]
    simp
  · intro env env' h heq
    unfold lookup_string
    rw [heq]

/-- Claim C8, witness: the mapped and unmapped cases at the concrete
table `internW` (codes 3 and 9 interned, code 7 unmapped). -/
theorem c8_witness :
    lookup_string internW 3 = "abc" ∧
      ((7 % ((dictValues internW.hash_string_table).length : Int)).toNat <
          (dictValues internW.hash_string_table).length ∧
        lookup_string internW 7 =
          (dictValues internW.hash_string_table).getD
              (7 % ((dictValues internW.hash_string_table).length : Int)).toNat "" ++
            toString (7 : Int)) :=
  ⟨c8_lookup_string.1 internW 3 "abc" (by decide),
   c8_lookup_string.2.1 internW 7 (by decide) (by decide)⟩

/-! ## Claim C10: coercion and decimal codes in string_hash -/

/-- Claim C10: `string_hash` accepts any value and behaves as if applied
to `str(x)`, and a not-yet-interned string that parses as a decimal
integer is assigned that integer itself as its code. -/
theorem c10_string_hash_coercion :
    (∀ (pyhash : String → Int) (env : InternTables) (x : PyVal),
      string_hash pyhash env x = string_hash pyhash env (PyVal.strV (pyStr x))) ∧
    (∀ (pyhash : String → Int) (env : InternTables) (s : String) (n : Int),
      pyIntParse s = some n → dictLookup env.string_hash_table s = none →
        (string_hash pyhash env (PyVal.strV s)).1 = n) := by
  constructor
  · intro ph env x
    rfl
  · intro ph env s n hp hl
    simp only [string_hash, pyStr, hl, hp]

/-- Claim C10, witness: coercion evaluated at the integer value 5 and
the decimal-code rule at the fresh string `"007"`. -/
theorem c10_witness :
    string_hash (fun _ => 0) internW (PyVal.intV 5) =
        string_hash (fun _ => 0) internW (PyVal.strV (pyStr (PyVal.intV 5))) ∧
      (string_hash (fun _ => 0) ⟨[], []⟩ (PyVal.strV "007")).1 = 7 :=
  ⟨c10_string_hash_coercion.1 (fun _ => 0) internW (PyVal.intV 5),
   c10_string_hash_coercion.2 (fun _ => 0) ⟨[], []⟩ "007" 7 (by decide) (by decide)⟩

/-! ## Claim C9: load_schema mutates the constraints list in place -/

theorem loadSchemaFold_spec (schema : List TableDecl) :
    ∀ (ts : List TableDecl) (enumAcc cs : List SchemaConstraint),
      (loadSchemaFold schema ts enumAcc cs).2 =
        cs ++ (List.range ts.length).flatMap
          (fun j => enumAcc ++ (ts.take (j + 1)).flatMap (tableEnumConstraints schema)) := by
  intro ts
  induction ts with
  | nil => intro enumAcc cs; simp [loadSchemaFold]
  | cons t rest ih =>
    intro enumAcc cs
    rw [show loadSchemaFold schema (t :: rest) enumAcc cs =
        loadSchemaFold schema rest (enumAcc ++ tableEnumConstraints schema t)
          (cs ++ (enumAcc ++ tableEnumConstraints schema t)) from rfl]
    rw [ih]
    rw [List.length_cons, List.range_succ_eq_map, List.flatMap_cons, List.flatMap_map]
    have hfun : ∀ j : Nat,
        (enumAcc ++ tableEnumConstraints schema t) ++
            (rest.take (j + 1)).flatMap (tableEnumConstraints schema) =
          enumAcc ++ ((t :: rest).take (Nat.succ j + 1)).flatMap (tableEnumConstraints schema) := by
      intro j
      rw [show Nat.succ j + 1 = j + 1 + 1 from rfl, List.take_succ_cons, List.flatMap_cons,
        List.append_assoc]
    have hflat : (List.range rest.length).flatMap
          (fun j => (enumAcc ++ tableEnumConstraints schema t) ++
            (rest.take (j + 1)).flatMap (tableEnumConstraints schema)) =
        (List.range rest.length).flatMap
          (fun j => enumAcc ++
            ((t :: rest).take (Nat.succ j + 1)).flatMap (tableEnumConstraints schema)) := by
      congr 1
      funext j
      exact hfun j
    rw [hflat]
    rw [show (t :: rest).take (0 + 1) = [t] from rfl]
    simp [List.append_assoc]

theorem load_schema_constraints_eq (schema : List TableDecl) (cs : List SchemaConstraint) :
    load_schema_constraints schema cs =
      cs ++ firstLoopAppends schema ++ schema.flatMap (tableKeyConstraints schema) := by
  unfold load_schema_constraints firstLoopAppends
  rw [loadSchemaFold_spec]
  simp [List.append_assoc]

theorem sum_indicator_range (T i : Nat) :
    ((List.range T).map fun j => if i ≤ j then (1 : Nat) else 0).sum = T - i := by
  induction T with
  | zero => simp
  | succ n ih =>
    rw [List.range_succ, List.map_append, List.sum_append, ih]
    by_cases h : i ≤ n <;> simp [h] <;> omega

theorem count_firstLoopAppends (schema : List TableDecl) (i : Nat) (hi : i < schema.length)
    (c : SchemaConstraint) (hc : c ∈ tableEnumConstraints schema (schema.getD i default)) :
    schema.length - i ≤ (firstLoopAppends schema).count c := by
  unfold firstLoopAppends
  rw [List.count_flatMap]
  rw [← sum_indicator_range schema.length i]
  apply List.sum_le_sum
  intro j hj
  by_cases hij : i ≤ j
  · simp only [if_pos hij, Function.comp]
    have hjl : i < (schema.take (j + 1)).length := by
      rw [List.length_take]
      have := List.mem_range.mp hj
      omega
    have hmem : c ∈ (schema.take (j + 1)).flatMap (tableEnumConstraints schema) := by
      apply List.mem_flatMap.mpr
      refine ⟨(schema.take (j + 1)).get ⟨i, hjl⟩, List.getElem_mem hjl, ?_⟩
      have hgd : schema.getD i default = schema[i] := List.getD_eq_getElem schema default hi
      have hgt : (schema.take (j + 1))[i] = schema[i] := List.getElem_take schema
      rw [show (schema.take (j + 1)).get ⟨i, hjl⟩ = (schema.take (j + 1))[i] from rfl, hgt, ← hgd]
      exact hc
    exact List.count_pos_iff.mpr hmem
  · simp [if_neg hij]

/-- Claim C9: `load_schema` appends to the caller-supplied constraints
list, in place: the derived primary-key and foreign-key `eq` constraints
of every table, and — because the accumulated enum-constraint list is
re-extended once per table inside the per-table loop — the enum
constraints of table `i` at least `len(schema) - i` times in a single
load, so enum constraints of earlier tables are appended more than once;
and `clear` runs `load_schema` again, appending a further copy of all
schema-derived constraints to the same list. -/
theorem c9_load_schema_append (schema : List TableDecl) (cs : List SchemaConstraint) :
    (load_schema_constraints schema cs =
        cs ++ firstLoopAppends schema ++ schema.flatMap (tableKeyConstraints schema)) ∧
      (∀ i < schema.length, ∀ c ∈ tableEnumConstraints schema (schema.getD i default),
        schema.length - i ≤ (firstLoopAppends schema).count c) ∧
      (∀ env : EnvState, (clear schema env).constraints =
        env.constraints ++ firstLoopAppends schema ++
          schema.flatMap (tableKeyConstraints schema)) :=
  ⟨load_schema_constraints_eq schema cs,
   fun i hi c hc => count_firstLoopAppends schema i hi c hc,
   fun env => load_schema_constraints_eq schema env.constraints⟩

/-- Claim C9, witness: the theorem instantiated at the concrete
two-table schema `schemaW`, whose first table carries one enum column;
that enum constraint occurs (at least) twice in a single load. -/
theorem c9_witness :
    (load_schema_constraints schemaW [] =
        [] ++ firstLoopAppends schemaW ++ schemaW.flatMap (tableKeyConstraints schemaW)) ∧
      schemaW.length - 0 ≤
        (firstLoopAppends schemaW).count (SchemaConstraint.enumC "t.c" ["x", "y"]) ∧
      (clear schemaW envC2).constraints =
        envC2.constraints ++ firstLoopAppends schemaW ++
          schemaW.flatMap (tableKeyConstraints schemaW) :=
  ⟨(c9_load_schema_append schemaW []).1,
   (c9_load_schema_append schemaW []).2.1 0 (by decide)
     (SchemaConstraint.enumC "t.c" ["x", "y"]) (by decide),
   (c9_load_schema_append schemaW []).2.2 envC2⟩

/-! ## Claim C7: the disambiguation constraints -/

theorem implies_bool_iff (a c : Bool) : ((!a || c) = true) ↔ (a = true → c = true) := by
  cases a <;> simp

theorem exactly_one_iff (b : Nat → Bool) :
    ((((List.range 2).any fun g => b g) = true) ∧
      ((((List.range 2).map fun g => (if b g then (1 : Int) else 0)).sum == 1) = true)) ↔
      ((List.range 2).countP fun g => b g) = 1 := by
  rw [show List.range 2 = [0, 1] from rfl]
  cases h0 : b 0 <;> cases h1 : b 1 <;> simp [h0, h1, List.countP_cons]

theorem per_output_iff (s : SMTState) (belongs : Nat → Nat → Bool) (q rep0 rep1 : Output) :
    ((((List.range 2).any fun g => belongs q.table_id g) &&
        ((List.range 2).all fun g =>
          !(belongs q.table_id g) || o1_eq_o2 s q ([rep0, rep1].getD g rep0)) &&
        (((List.range 2).map fun g => groupIndicator belongs q.table_id g).sum == 1)) = true) ↔
      (((List.range 2).countP fun g => belongs q.table_id g) = 1 ∧
        ∀ g < 2, belongs q.table_id g = true →
          o1_eq_o2 s q ([rep0, rep1].getD g rep0) = true) := by
  simp only [groupIndicator, Bool.and_eq_true]
  constructor
  · rintro ⟨⟨hany, hall⟩, hsum⟩
    refine ⟨(exactly_one_iff fun g => belongs q.table_id g).mp ⟨hany, hsum⟩, ?_⟩
    intro g hg hb
    have h2 := List.all_eq_true.mp hall g (List.mem_range.mpr hg)
    exact (implies_bool_iff _ _).mp h2 hb
  · rintro ⟨hcnt, himp⟩
    have hpair := (exactly_one_iff fun g => belongs q.table_id g).mpr hcnt
    refine ⟨⟨hpair.1, ?_⟩, hpair.2⟩
    rw [List.all_eq_true]
    intro g hg
    exact (implies_bool_iff _ _).mpr (himp g (List.mem_range.mp hg))

theorem occ_part_iff (lo hi : Int) (f : Nat → Int) :
    (((List.range 2).all fun g => decide (lo ≤ f g) && decide (f g ≤ hi)) = true) ↔
      (∀ g < 2, lo ≤ f g ∧ f g ≤ hi) := by
  rw [List.all_eq_true]
  constructor
  · intro h g hg
    have h2 := h g (List.mem_range.mpr hg)
    simp only [Bool.and_eq_true, decide_eq_true_eq] at h2
    exact h2
  · intro h g hg
    simp only [Bool.and_eq_true, decide_eq_true_eq]
    exact h g (List.mem_range.mp hg)

theorem pair_part_iff (e : Nat → Nat → Bool) :
    (((List.range 2).all fun g => (List.range 2).all fun g' =>
        if g' = g then true else !(e g g')) = true) ↔
      (∀ g < 2, ∀ g' < 2, g ≠ g' → e g g' = false) := by
  simp only [List.all_eq_true, List.mem_range]
  constructor
  · intro h g hg g' hg' hne
    have h2 := h g hg g' hg'
    rw [if_neg (fun hh : g' = g => hne hh.symm)] at h2
    simpa using h2
  · intro h g hg g' hg'
    by_cases hgg : g' = g
    · rw [if_pos hgg]
    · rw [if_neg hgg]
      have h2 := h g hg g' hg' (fun hh => hgg hh.symm)
      simp [h2]

theorem occupancy_total (belongs : Nat → Nat → Bool) (outputs : List Output)
    (h : ∀ q ∈ outputs, ((List.range 2).countP fun g => belongs q.table_id g) = 1) :
    occupancy belongs outputs 0 + occupancy belongs outputs 1 = (outputs.length : Int) := by
  induction outputs with
  | nil => simp [occupancy]
  | cons q t ih =>
    have hq := h q (by simp)
    have ht := ih fun p hp => h p (by simp [hp])
    unfold occupancy at ht ⊢
    simp only [List.map_cons, List.sum_cons, List.length_cons]
    rw [show List.range 2 = [0, 1] from rfl] at hq
    have hone : groupIndicator belongs q.table_id 0 + groupIndicator belongs q.table_id 1 = 1 := by
      cases h0 : belongs q.table_id 0 <;> cases h1 : belongs q.table_id 1 <;>
        simp_all [groupIndicator, List.countP_cons]
    push_cast
    omega

theorem band_of_bounds (n : ℕ) (r : ℚ) (a b : Int)
    (htot : a + b = (n : Int))
    (ha : occLow n r ≤ a ∧ a ≤ occHigh n r)
    (hb : occLow n r ≤ b ∧ b ≤ occHigh n r) :
    (n : ℚ) / 2 - r ≤ (a : ℚ) ∧ (a : ℚ) ≤ (n : ℚ) / 2 + r := by
  have h1a : 1 ≤ occLow n r := by
    unfold occLow pyTruncQ
    have hq : (1 : ℚ) ≤ max ((n : ℚ) / 2 - r) 1 := le_max_right _ _
    rw [if_pos (le_trans zero_le_one hq)]
    exact Int.le_floor.mpr (by exact_mod_cast hq)
  have ha1 : 1 ≤ a := le_trans h1a ha.1
  have hb1 : 1 ≤ b := le_trans h1a hb.1
  have hhigh1 : 1 ≤ occHigh n r := le_trans ha1 ha.2
  have hq1 : (0 : ℚ) ≤ (n : ℚ) / 2 + r := by
    by_cases h0 : 0 ≤ (n : ℚ) / 2 + r
    · exact h0
    · exfalso
      unfold occHigh pyTruncQ at hhigh1
      rw [if_neg h0] at hhigh1
      push_neg at h0
      have hfl : (0 : Int) ≤ ⌊-((n : ℚ) / 2 + r)⌋ := Int.le_floor.mpr (by push_cast; linarith)
      omega
  have hup : ∀ x : Int, x ≤ occHigh n r → (x : ℚ) ≤ (n : ℚ) / 2 + r := by
    intro x hx
    unfold occHigh pyTruncQ at hx
    rw [if_pos hq1] at hx
    calc (x : ℚ) ≤ (⌊(n : ℚ) / 2 + r⌋ : ℚ) := by exact_mod_cast hx
      _ ≤ (n : ℚ) / 2 + r := Int.floor_le _
  refine ⟨?_, hup a ha.2⟩
  have hbu := hup b hb.2
  have hc : (a : ℚ) + (b : ℚ) = (n : ℚ) := by exact_mod_cast htot
  linarith

/-- Claim C7: the emitted disambiguation constraints hold under an
assignment exactly when every query output has exactly one true
group-membership indicator, each true indicator implies `o1_eq_o2`
equivalence of that output with the group's representative, each group's
occupancy lies between the coded bounds, and the representatives of the
two distinct groups are pairwise not equivalent; moreover, whenever the
constraints hold, every group's occupancy lies within `±group_range` of
the even split `len(outputs)/2`. -/
theorem c7_disambiguation (s : SMTState) (belongs : Nat → Nat → Bool)
    (outputs : List Output) (rep0 rep1 : Output) (group_range : ℚ) :
    (disambiguation_cond s belongs outputs rep0 rep1 group_range = true ↔
      ((∀ q ∈ outputs, ((List.range 2).countP fun g => belongs q.table_id g) = 1) ∧
        (∀ q ∈ outputs, ∀ g < 2, belongs q.table_id g = true →
          o1_eq_o2 s q ([rep0, rep1].getD g rep0) = true) ∧
        (∀ g < 2, occLow outputs.length group_range ≤ occupancy belongs outputs g ∧
          occupancy belongs outputs g ≤ occHigh outputs.length group_range) ∧
        (∀ g < 2, ∀ g' < 2, g ≠ g' →
          o1_eq_o2 s ([rep0, rep1].getD g rep0) ([rep0, rep1].getD g' rep0) = false))) ∧
    (disambiguation_cond s belongs outputs rep0 rep1 group_range = true →
      ∀ g < 2,
        (outputs.length : ℚ) / 2 - group_range ≤ (occupancy belongs outputs g : ℚ) ∧
          (occupancy belongs outputs g : ℚ) ≤ (outputs.length : ℚ) / 2 + group_range) := by
  have hiff : disambiguation_cond s belongs outputs rep0 rep1 group_range = true ↔
      ((∀ q ∈ outputs, ((List.range 2).countP fun g => belongs q.table_id g) = 1) ∧
        (∀ q ∈ outputs, ∀ g < 2, belongs q.table_id g = true →
          o1_eq_o2 s q ([rep0, rep1].getD g rep0) = true) ∧
        (∀ g < 2, occLow outputs.length group_range ≤ occupancy belongs outputs g ∧
          occupancy belongs outputs g ≤ occHigh outputs.length group_range) ∧
        (∀ g < 2, ∀ g' < 2, g ≠ g' →
          o1_eq_o2 s ([rep0, rep1].getD g rep0) ([rep0, rep1].getD g' rep0) = false)) := by
    simp only [disambiguation_cond, Bool.and_eq_true]
    constructor
    · rintro ⟨⟨hA, hB⟩, hC⟩
      have hA' := List.all_eq_true.mp hA
      exact ⟨fun q hq => ((per_output_iff s belongs q rep0 rep1).mp (hA' q hq)).1,
        fun q hq => ((per_output_iff s belongs q rep0 rep1).mp (hA' q hq)).2,
        (occ_part_iff _ _ _).mp hB,
        (pair_part_iff _).mp hC⟩
    · rintro ⟨h1, h2, h3, h4⟩
      exact ⟨⟨List.all_eq_true.mpr fun q hq =>
          (per_output_iff s belongs q rep0 rep1).mpr ⟨h1 q hq, h2 q hq⟩,
        (occ_part_iff _ _ _).mpr h3⟩, (pair_part_iff _).mpr h4⟩
  refine ⟨hiff, ?_⟩
  intro hd g hg
  obtain ⟨h1, _, h3, _⟩ := hiff.mp hd
  have htot := occupancy_total belongs outputs h1
  have h30 := h3 0 (by omega)
  have h31 := h3 1 (by omega)
  have hg01 : g = 0 ∨ g = 1 := by omega
  rcases hg01 with rfl | rfl
  · exact band_of_bounds outputs.length group_range _ _ htot h30 h31
  · exact band_of_bounds outputs.length group_range _ _ (by omega) h31 h30

/-- Claim C7, witness: the theorem instantiated at a concrete
single-query instance with group assignment `belongsW`. -/
theorem c7_witness :
    (disambiguation_cond sPlain belongsW [oA1] oA1 oB2 0 = true ↔
      ((∀ q ∈ [oA1], ((List.range 2).countP fun g => belongsW q.table_id g) = 1) ∧
        (∀ q ∈ [oA1], ∀ g < 2, belongsW q.table_id g = true →
          o1_eq_o2 sPlain q ([oA1, oB2].getD g oA1) = true) ∧
        (∀ g < 2, occLow [oA1].length 0 ≤ occupancy belongsW [oA1] g ∧
          occupancy belongsW [oA1] g ≤ occHigh [oA1].length 0) ∧
        (∀ g < 2, ∀ g' < 2, g ≠ g' →
          o1_eq_o2 sPlain ([oA1, oB2].getD g oA1) ([oA1, oB2].getD g' oA1) = false))) ∧
    (disambiguation_cond sPlain belongsW [oA1] oA1 oB2 0 = true →
      ∀ g < 2, ([oA1].length : ℚ) / 2 - 0 ≤ (occupancy belongsW [oA1] g : ℚ) ∧
        (occupancy belongsW [oA1] g : ℚ) ≤ ([oA1].length : ℚ) / 2 + 0) :=
  c7_disambiguation sPlain belongsW [oA1] oA1 oB2 0

end Polygon
